import Mathlib

/-!
Verification of the Monte Carlo Localization particle filter in
`Monte Carlo Localization/catkin_ws/src/usc545mcl/bin/usc545mcl.py`.

The Python source is shallowly embedded below.  Machine floating-point
values are modelled as real numbers (`ℝ`) where the code computes with
transcendental functions, and as rationals (`ℚ`) where exact decidable
arithmetic makes concrete evaluation possible.  Grid cells and cell
indices are integer pairs.  Randomness (numpy draws) is factored out:
each random quantity becomes an explicit argument of the embedded
function, so a theorem quantifying over that argument covers every
possible draw.
-/

namespace Usc545mcl

/-- Model of the numpy `int8` occupancy array passed to `_CastRay`:
`rows`/`cols` are `grid_data.shape[0]`/`grid_data.shape[1]`, and
`data r c` is `grid_data[r, c]` (row-major indexing as in the source). -/
structure GridData where
  rows : ℤ
  cols : ℤ
  data : ℤ → ℤ → ℤ

/-- The in-bounds test of `_CastRay`:
`0 <= p[0] < grid_data.shape[1] and 0 <= p[1] < grid_data.shape[0]`. -/
def cellInBounds (g : GridData) (p : ℤ × ℤ) : Prop :=
  0 ≤ p.1 ∧ p.1 < g.cols ∧ 0 ≤ p.2 ∧ p.2 < g.rows

instance (g : GridData) (p : ℤ × ℤ) : Decidable (cellInBounds g p) :=
  inferInstanceAs (Decidable (_ ∧ _ ∧ _ ∧ _))

/-- The loop of `_CastRay` (usc545mcl.py lines 46-63).  `fuel` is the
number of remaining iterations of `for i in range(n)`; the second
component of the result collects the cells examined by the loop (one
per executed iteration), mirroring the source's per-iteration reads of
`p`.  When the loop completes without an early return, the source
returns `p1`. -/
def castRayGo (g : GridData) (p1 : ℤ × ℤ) (incx incy dx2 dy2 : ℤ) :
    ℕ → ℤ × ℤ → ℤ × ℤ → ℤ → (ℤ × ℤ) × List (ℤ × ℤ)
  | 0, _, _, _ => (p1, [])
  | fuel + 1, p, last_p, err =>
      if ¬(0 ≤ p.1 ∧ p.1 < g.cols ∧ 0 ≤ p.2 ∧ p.2 < g.rows) then (last_p, [p])
      else if g.data p.2 p.1 ≠ 0 then (p, [p])
      else if 0 < err then
        let r := castRayGo g p1 incx incy dx2 dy2 fuel (p.1 + incx, p.2) p (err - dy2)
        (r.1, p :: r.2)
      else
        let r := castRayGo g p1 incx incy dx2 dy2 fuel (p.1, p.2 + incy) p (err + dx2)
        (r.1, p :: r.2)

/-- Embedding of `_CastRay(p0, p1, grid_data)` (usc545mcl.py lines 33-63), together
with the list of cells its loop examines.  `delta = |p1 - p0|`,
`n = 1 + delta.sum()`, `inc = (±1, ±1)`, `error = delta[0] - delta[1]`
before `delta *= 2`. -/
def castRayFull (p0 p1 : ℤ × ℤ) (g : GridData) : (ℤ × ℤ) × List (ℤ × ℤ) :=
  let dx := |p1.1 - p0.1|
  let dy := |p1.2 - p0.2|
  let incx : ℤ := if p1.1 > p0.1 then 1 else -1
  let incy : ℤ := if p1.2 > p0.2 then 1 else -1
  castRayGo g p1 incx incy (2 * dx) (2 * dy) (1 + dx + dy).toNat p0 p0 (dx - dy)

/-- The cell returned by `_CastRay(p0, p1, grid_data)`. -/
def CastRay (p0 p1 : ℤ × ℤ) (g : GridData) : ℤ × ℤ :=
  (castRayFull p0 p1 g).1

/-- The cells examined by the loop of `_CastRay(p0, p1, grid_data)`,
in visiting order. -/
def castRayVisits (p0 p1 : ℤ × ℤ) (g : GridData) : List (ℤ × ℤ) :=
  (castRayFull p0 p1 g).2

/-- A 2-by-2 grid with every cell free. -/
def freeGrid2 : GridData :=
  { rows := 2, cols := 2, data := fun _ _ => 0 }

/-- A 1-by-3 grid whose middle cell holds the `unknown` value `-1`. -/
def unknownGrid : GridData :=
  { rows := 1, cols := 3, data := fun _ c => if c = 1 then -1 else 0 }

/-- A 1-by-3 grid whose middle cell holds the `occupied` value `100`. -/
def occupiedGrid : GridData :=
  { rows := 1, cols := 3, data := fun _ c => if c = 1 then 100 else 0 }

/-- The cast performed by numpy `astype(np.int32)` on a finite float:
truncation toward zero.  For a non-negative value this is the floor,
for a negative value the ceiling. -/
def astypeInt32 (q : ℚ) : ℤ :=
  if 0 ≤ q then ⌊q⌋ else ⌈q⌉

/-- Embedding of `Grid.WorldToGrid(point)` (usc545mcl.py lines 152-154):
`((point - self.world_T_map.translation) / self.resolution).astype(np.int32)`,
instantiated with exact rational coordinates so the result is
computable.  `world_t_map` is the origin translation of the grid. -/
def WorldToGrid (world_t_map : ℚ × ℚ) (resolution : ℚ) (point : ℚ × ℚ) : ℤ × ℤ :=
  (astypeInt32 ((point.1 - world_t_map.1) / resolution),
   astypeInt32 ((point.2 - world_t_map.2) / resolution))

/-- A `Pose`: rotation in radians plus a 2D translation
(usc545mcl.py lines 104-112). -/
structure Pose where
  rotation : ℝ
  translation : ℝ × ℝ

instance : Inhabited Pose := ⟨⟨0, (0, 0)⟩⟩

/-- The fields of the `Grid` wrapper that particles share
(usc545mcl.py lines 132-147): cell counts, metric resolution, origin
pose of the map, and the occupancy array. -/
structure Grid where
  cols : ℤ
  rows : ℤ
  resolution : ℝ
  world_T_map : Pose
  data : ℤ → ℤ → ℤ

instance : Inhabited Grid := ⟨⟨0, 0, 0, default, fun _ _ => 0⟩⟩

/-- Embedding of `RotateBy(x, angle)` (usc545mcl.py lines 93-101): rotate a 2D
vector by `angle`. -/
noncomputable def RotateBy (x : ℝ × ℝ) (angle : ℝ) : ℝ × ℝ :=
  (Real.cos angle * x.1 - Real.sin angle * x.2,
   Real.sin angle * x.1 + Real.cos angle * x.2)

/-- The state of one `Particle` (usc545mcl.py lines 187-206): the
shared grid, the pose hypothesis, the timestamp of the last odometry
message seen, and the importance weight (initially 1). -/
structure Particle where
  grid : Grid
  map_T_particle : Pose
  last_odom_timestamp : Option ℝ
  weight : ℝ

instance : Inhabited Particle := ⟨⟨default, default, none, 1⟩⟩

/-- The parts of a ROS odometry message read by `Particle.UpdateOdom`:
the header timestamp (in seconds) and the twist velocities. -/
structure OdomMsg where
  stamp : ℝ
  linear_x : ℝ
  linear_y : ℝ
  angular_z : ℝ

/-- Embedding of `Particle.UpdateOdom(odom_msg)` (usc545mcl.py lines 208-248).  The
three `np.random.normal` draws are factored out as the additive noise
arguments `noise_x`, `noise_y`, `noise_rot` (a normal draw with mean
`v` is `v` plus a mean-zero draw), so quantifying over them covers
every realization of the motion noise. -/
noncomputable def Particle.UpdateOdom (p : Particle) (odom : OdomMsg)
    (noise_x noise_y noise_rot : ℝ) : Particle :=
  let dt : ℝ :=
    match p.last_odom_timestamp with
    | some t => odom.stamp - t
    | none => 0
  let velx := odom.linear_x + noise_x
  let vely := odom.linear_y + noise_y
  let vel_map := RotateBy (velx, vely) p.map_T_particle.rotation
  let velrot := odom.angular_z + noise_rot
  { p with
    map_T_particle :=
      { rotation := p.map_T_particle.rotation + velrot * dt
        translation := (p.map_T_particle.translation.1 + vel_map.1 * dt,
                        p.map_T_particle.translation.2 + vel_map.2 * dt) }
    last_odom_timestamp := some odom.stamp }

/-- The constant `SENSOR_MODEL_VAR` (usc545mcl.py line 29). -/
noncomputable def SENSOR_MODEL_VAR : ℝ := 15

/-- The per-beam likelihood computed inside `Particle.UpdateScan`
(usc545mcl.py line 364):
`(1 / (np.sqrt(2 * np.pi) * SENSOR_MODEL_VAR)) *
 np.exp(-0.5 * ((scan.ranges[i] - sim_ranges[i]) / SENSOR_MODEL_VAR) ** 2)`. -/
noncomputable def beamP (range_i sim_i : ℝ) : ℝ :=
  (1 / (Real.sqrt (2 * Real.pi) * SENSOR_MODEL_VAR)) *
    Real.exp (-(1 / 2) * ((range_i - sim_i) / SENSOR_MODEL_VAR) ^ 2)

/-- The weight stored by `Particle.UpdateScan` (usc545mcl.py lines
361-374) as a function of the observed ranges and the simulated
ranges: the loop product of the per-beam likelihoods, then the
underflow guard that replaces a zero product by `10**(-300)` and
otherwise multiplies by `10**300`. -/
noncomputable def UpdateScanWeight (ranges sim_ranges : List ℝ) : ℝ :=
  let w := (ranges.zip sim_ranges).foldl (fun acc pr => acc * beamP pr.1 pr.2) 1
  if w = 0 then (10 : ℝ) ^ (-300 : ℤ) else w * (10 : ℝ) ^ (300 : ℕ)

/-- The mathematically standard Gaussian probability density with the
given mean and variance, as named by the specification. -/
noncomputable def gaussianPdf (x mean variance : ℝ) : ℝ :=
  (1 / Real.sqrt (2 * Real.pi * variance)) *
    Real.exp (-((x - mean) ^ 2) / (2 * variance))

/-- The constant `NUM_PARTICLES` (usc545mcl.py line 30), the module-level constant
hard-coded into the importance-sampling section of
`ParticleFilter.UpdateScan`. -/
def NUM_PARTICLES : ℕ := 2000

/-- The importance-sampling section of `ParticleFilter.UpdateScan`
(usc545mcl.py lines 436-457).  `idx` stands for the index vector drawn
by `np.random.choice(NUM_PARTICLES, NUM_PARTICLES, p=prob)`; its draw
is the only randomness, so quantifying over `idx` covers every draw.
The result is `none` when the section raises: an `IndexError` when the
population holds fewer than `NUM_PARTICLES` particles (the loop reads
`self.particles[i]` for every `i < NUM_PARTICLES`), or the
`ValueError` of `np.random.choice` when the normalized `prob` vector
is not a probability distribution (entries `w / Σw` that do not sum
to 1, or a negative entry) — which is what division by a zero weight
sum produces.  On success each drawn particle is `copy.deepcopy`-ed
(a value copy) into the new population, which replaces the first
`NUM_PARTICLES` slots of `self.particles`. -/
noncomputable def resampleStep (ps : List Particle) (idx : List ℕ) :
    Option (List Particle) :=
  let prob := (ps.take NUM_PARTICLES).map Particle.weight
  if NUM_PARTICLES ≤ ps.length ∧
      (prob.map (fun w => w / prob.sum)).sum = 1 ∧
      (∀ w ∈ prob, 0 ≤ w / prob.sum) then
    some ((idx.map fun j => ps.getD j default) ++ ps.drop NUM_PARTICLES)
  else none

/-- A particle with weight 1 (the constructor default) at the origin
pose over the default grid. -/
noncomputable def onePart : Particle :=
  { grid := default, map_T_particle := ⟨0, (0, 0)⟩,
    last_odom_timestamp := none, weight := 1 }

/-- A particle with weight 2. -/
noncomputable def twoPart : Particle :=
  { grid := default, map_T_particle := ⟨0, (0, 0)⟩,
    last_odom_timestamp := none, weight := 2 }

/-- A particle with weight 0. -/
noncomputable def zeroPart : Particle :=
  { grid := default, map_T_particle := ⟨0, (0, 0)⟩,
    last_odom_timestamp := none, weight := 0 }

lemma castRayGo_visits_length_le (g : GridData) (p1 : ℤ × ℤ) (incx incy dx2 dy2 : ℤ) :
    ∀ (fuel : ℕ) (p last_p : ℤ × ℤ) (err : ℤ),
      (castRayGo g p1 incx incy dx2 dy2 fuel p last_p err).2.length ≤ fuel := by
  intro fuel
  induction fuel with
  | zero => intro p last_p err; simp [castRayGo]
  | succ fuel ih =>
    intro p last_p err
    simp only [castRayGo]
    split
    · simp
    · split
      · simp
      · split
        · simpa using Nat.succ_le_succ (ih _ _ _)
        · simpa using Nat.succ_le_succ (ih _ _ _)

lemma castRayGo_allFree_aux (g : GridData) (x0 y0 x1 y1 sx sy dx dy : ℤ)
    (hfree : ∀ r c, 0 ≤ c → c < g.cols → 0 ≤ r → r < g.rows → g.data r c = 0)
    (hx0 : 0 ≤ x0) (hx0c : x0 < g.cols) (hy0 : 0 ≤ y0) (hy0r : y0 < g.rows)
    (hx1 : 0 ≤ x1) (hx1c : x1 < g.cols) (hy1 : 0 ≤ y1) (hy1r : y1 < g.rows)
    (hdx0 : 0 ≤ dx) (hdy0 : 0 ≤ dy)
    (hsx : sx = 1 ∨ sx = -1) (hsy : sy = 1 ∨ sy = -1)
    (hsx2 : sx * dx = x1 - x0) (hsy2 : sy * dy = y1 - y0) :
    ∀ (fuel : ℕ) (a b err : ℤ) (last_p : ℤ × ℤ),
      0 ≤ a → 0 ≤ b → a ≤ dx → b ≤ dy →
      a + b + (fuel : ℤ) = 1 + dx + dy →
      err = dx - dy + 2 * (b * dx - a * dy) →
      (castRayGo g (x1, y1) sx sy (2 * dx) (2 * dy) fuel
          (x0 + sx * a, y0 + sy * b) last_p err).1 = (x1, y1) := by
  intro fuel
  induction fuel with
  | zero => intro a b err last_p _ _ _ _ _ _; simp [castRayGo]
  | succ fuel ih =>
    intro a b err last_p ha hb hadx hbdy hsum herr
    have hpx : 0 ≤ x0 + sx * a ∧ x0 + sx * a < g.cols := by
      rcases hsx with rfl | rfl <;> constructor <;> nlinarith
    have hpy : 0 ≤ y0 + sy * b ∧ y0 + sy * b < g.rows := by
      rcases hsy with rfl | rfl <;> constructor <;> nlinarith
    have hinb : 0 ≤ (x0 + sx * a, y0 + sy * b).1 ∧
        (x0 + sx * a, y0 + sy * b).1 < g.cols ∧
        0 ≤ (x0 + sx * a, y0 + sy * b).2 ∧
        (x0 + sx * a, y0 + sy * b).2 < g.rows :=
      ⟨hpx.1, hpx.2, hpy.1, hpy.2⟩
    have hdat : g.data (x0 + sx * a, y0 + sy * b).2 (x0 + sx * a, y0 + sy * b).1 = 0 :=
      hfree _ _ hpx.1 hpx.2 hpy.1 hpy.2
    simp only [castRayGo]
    rw [if_neg (not_not_intro hinb), if_neg (not_not_intro hdat)]
    by_cases herr0 : 0 < err
    · rw [if_pos herr0]
      by_cases hadx1 : a < dx
      · have hx : (x0 + sx * a + sx, y0 + sy * b) = (x0 + sx * (a + 1), y0 + sy * b) := by
          rw [Prod.mk.injEq]; exact ⟨by ring, rfl⟩
        have hsum1 : (a + 1) + b + (fuel : ℤ) = 1 + dx + dy := by
          push_cast at hsum ⊢; omega
        have herr1 : err - 2 * dy = dx - dy + 2 * (b * dx - (a + 1) * dy) := by
          rw [herr]; ring
        simpa [hx] using ih (a + 1) b (err - 2 * dy) _ (by omega) hb
          (by omega) hbdy hsum1 herr1
      · have ha' : a = dx := le_antisymm hadx (not_lt.mp hadx1)
        have hb' : b = dy := by
          by_contra hbne
          have hblt : b ≤ dy - 1 := by
            rcases lt_or_eq_of_le hbdy with h | h
            · omega
            · exact absurd h hbne
          have hkey : b * dx ≤ dy * dx - dx :=
            calc b * dx ≤ (dy - 1) * dx := mul_le_mul_of_nonneg_right hblt hdx0
              _ = dy * dx - dx := by ring
          have herr2 : err = dx - dy + 2 * (b * dx) - 2 * (dx * dy) := by rw [herr, ha']; ring
          have hkey2 : b * dx ≤ dx * dy - dx := by linarith [hkey]
          linarith [herr2, hkey2, herr0, hdx0, hdy0]
        have hf0 : fuel = 0 := by
          have : a + b + ((fuel : ℤ) + 1) = 1 + dx + dy := by push_cast at hsum; linarith
          omega
        subst hf0
        simp [castRayGo]
    · rw [if_neg herr0]
      by_cases hbdy1 : b < dy
      · have hy : (x0 + sx * a, y0 + sy * b + sy) = (x0 + sx * a, y0 + sy * (b + 1)) := by
          rw [Prod.mk.injEq]; exact ⟨rfl, by ring⟩
        have hsum1 : a + (b + 1) + (fuel : ℤ) = 1 + dx + dy := by
          push_cast at hsum ⊢; omega
        have herr1 : err + 2 * dx = dx - dy + 2 * ((b + 1) * dx - a * dy) := by
          rw [herr]; ring
        simpa [hy] using ih a (b + 1) (err + 2 * dx) _ ha (by omega)
          hadx (by omega) hsum1 herr1
      · have hb' : b = dy := le_antisymm hbdy (not_lt.mp hbdy1)
        have ha' : a = dx := by
          by_contra hane
          have halt : a ≤ dx - 1 := by
            rcases lt_or_eq_of_le hadx with h | h
            · omega
            · exact absurd h hane
          have hkey : a * dy ≤ dx * dy - dy :=
            calc a * dy ≤ (dx - 1) * dy := mul_le_mul_of_nonneg_right halt hdy0
              _ = dx * dy - dy := by ring
          have herr2 : err = dx - dy + 2 * (dx * dy) - 2 * (a * dy) := by rw [herr, hb']; ring
          have hkey2 : a * dy ≤ dx * dy - dy := by linarith [hkey]
          have herr3 : err ≤ 0 := not_lt.mp herr0
          linarith [herr2, hkey2, herr3, hdx0, hdy0, ha, halt]
        have hf0 : fuel = 0 := by
          have : a + b + ((fuel : ℤ) + 1) = 1 + dx + dy := by push_cast at hsum; linarith
          omega
        subst hf0
        simp [castRayGo]

lemma castRayGo_result_inbounds (g : GridData) (p1 : ℤ × ℤ) (incx incy dx2 dy2 : ℤ) :
    ∀ (fuel : ℕ) (p last_p : ℤ × ℤ) (err : ℤ),
      cellInBounds g last_p →
      (castRayGo g p1 incx incy dx2 dy2 fuel p last_p err).1 = p1 ∨
        cellInBounds g (castRayGo g p1 incx incy dx2 dy2 fuel p last_p err).1 := by
  intro fuel
  induction fuel with
  | zero => intro p last_p err _; left; simp [castRayGo]
  | succ fuel ih =>
    intro p last_p err hlast
    simp only [castRayGo]
    split
    · right; exact hlast
    · rename_i hpin
      have hp : cellInBounds g p := not_not.mp hpin
      split
      · right; exact hp
      · split
        · simpa using ih _ p _ hp
        · simpa using ih _ p _ hp

lemma castRayGo_congr_zero (g g' : GridData) (hr : g.rows = g'.rows)
    (hc : g.cols = g'.cols) (hdata : ∀ r c, g.data r c = 0 ↔ g'.data r c = 0)
    (p1 : ℤ × ℤ) (incx incy dx2 dy2 : ℤ) :
    ∀ (fuel : ℕ) (p last_p : ℤ × ℤ) (err : ℤ),
      castRayGo g p1 incx incy dx2 dy2 fuel p last_p err =
        castRayGo g' p1 incx incy dx2 dy2 fuel p last_p err := by
  intro fuel
  induction fuel with
  | zero => intro p last_p err; rfl
  | succ fuel ih =>
    intro p last_p err
    simp only [castRayGo]
    by_cases hb : 0 ≤ p.1 ∧ p.1 < g.cols ∧ 0 ≤ p.2 ∧ p.2 < g.rows
    · have hb' : 0 ≤ p.1 ∧ p.1 < g'.cols ∧ 0 ≤ p.2 ∧ p.2 < g'.rows := by
        rw [← hr, ← hc]; exact hb
      rw [if_neg (not_not_intro hb), if_neg (not_not_intro hb')]
      by_cases hd : g.data p.2 p.1 = 0
      · have hd' : g'.data p.2 p.1 = 0 := (hdata _ _).mp hd
        rw [if_neg (not_not_intro hd), if_neg (not_not_intro hd')]
        split
        · simp only [ih]
        · simp only [ih]
      · have hd' : ¬g'.data p.2 p.1 = 0 := fun h => hd ((hdata _ _).mpr h)
        rw [if_pos hd, if_pos hd']
    · have hb' : ¬(0 ≤ p.1 ∧ p.1 < g'.cols ∧ 0 ≤ p.2 ∧ p.2 < g'.rows) := by
        rw [← hr, ← hc]; exact hb
      rw [if_pos hb, if_pos hb']

/-- C8: on a grid whose in-bounds cells are all free, `_CastRay` from any
in-bounds origin to any in-bounds target returns the target cell: the
walk stays inside the bounding box of the two endpoints, so neither the
out-of-bounds branch nor the occupied branch can fire before the loop
completes and the source returns `p1`. -/
theorem castRay_allFree_returns_target (g : GridData)
    (hfree : ∀ r c, 0 ≤ c → c < g.cols → 0 ≤ r → r < g.rows → g.data r c = 0)
    (p0 p1 : ℤ × ℤ) (h0 : cellInBounds g p0) (h1 : cellInBounds g p1) :
    CastRay p0 p1 g = p1 := by
  obtain ⟨x0, y0⟩ := p0
  obtain ⟨x1, y1⟩ := p1
  obtain ⟨hx0, hx0c, hy0, hy0r⟩ := h0
  obtain ⟨hx1, hx1c, hy1, hy1r⟩ := h1
  have hdx0 : (0 : ℤ) ≤ |x1 - x0| := abs_nonneg _
  have hdy0 : (0 : ℤ) ≤ |y1 - y0| := abs_nonneg _
  have hsx : (if x1 > x0 then (1 : ℤ) else -1) = 1 ∨
      (if x1 > x0 then (1 : ℤ) else -1) = -1 := by split <;> simp
  have hsy : (if y1 > y0 then (1 : ℤ) else -1) = 1 ∨
      (if y1 > y0 then (1 : ℤ) else -1) = -1 := by split <;> simp
  have hsx2 : (if x1 > x0 then (1 : ℤ) else -1) * |x1 - x0| = x1 - x0 := by
    split
    · rename_i h; rw [abs_of_pos (by omega)]; ring
    · rename_i h; rw [abs_of_nonpos (by omega)]; ring
  have hsy2 : (if y1 > y0 then (1 : ℤ) else -1) * |y1 - y0| = y1 - y0 := by
    split
    · rename_i h; rw [abs_of_pos (by omega)]; ring
    · rename_i h; rw [abs_of_nonpos (by omega)]; ring
  have hsum : (0 : ℤ) + 0 + (((1 + |x1 - x0| + |y1 - y0|).toNat : ℤ)) =
      1 + |x1 - x0| + |y1 - y0| := by
    rw [Int.toNat_of_nonneg (by linarith)]; ring
  have key := castRayGo_allFree_aux g x0 y0 x1 y1 _ _ |x1 - x0| |y1 - y0| hfree
    hx0 hx0c hy0 hy0r hx1 hx1c hy1 hy1r hdx0 hdy0 hsx hsy hsx2 hsy2
    ((1 + |x1 - x0| + |y1 - y0|).toNat) 0 0 (|x1 - x0| - |y1 - y0|) (x0, y0)
    le_rfl le_rfl hdx0 hdy0 hsum (by ring)
  simp only [mul_zero, add_zero] at key
  simpa [CastRay, castRayFull] using key

/-- Witness for `castRay_allFree_returns_target` at a concrete all-free
grid and in-bounds endpoints. -/
theorem castRay_allFree_returns_target_witness :
    cellInBounds freeGrid2 (0, 0) ∧ cellInBounds freeGrid2 (1, 1) ∧
      CastRay (0, 0) (1, 1) freeGrid2 = (1, 1) :=
  ⟨by decide, by decide,
    castRay_allFree_returns_target freeGrid2 (fun _ _ _ _ _ _ => rfl)
      (0, 0) (1, 1) (by decide) (by decide)⟩

/-- C9: the loop of `_CastRay` examines at most `1 + |Δcol| + |Δrow|`
cells: its iteration count is `n = 1 + delta.sum()`. -/
theorem castRay_visit_count_bound (p0 p1 : ℤ × ℤ) (g : GridData) :
    (castRayVisits p0 p1 g).length ≤ (1 + |p1.1 - p0.1| + |p1.2 - p0.2|).toNat := by
  simpa [castRayVisits, castRayFull] using
    castRayGo_visits_length_le g p1 (if p1.1 > p0.1 then 1 else -1)
      (if p1.2 > p0.2 then 1 else -1) (2 * |p1.1 - p0.1|) (2 * |p1.2 - p0.2|)
      ((1 + |p1.1 - p0.1| + |p1.2 - p0.2|).toNat) p0 p0
      (|p1.1 - p0.1| - |p1.2 - p0.2|)

lemma castRayGo_oob_returns_prev (g : GridData) (p1 : ℤ × ℤ) (incx incy dx2 dy2 : ℤ) :
    ∀ (fuel : ℕ) (p last_p : ℤ × ℤ) (err : ℤ),
      (∀ q ∈ (castRayGo g p1 incx incy dx2 dy2 fuel p last_p err).2, cellInBounds g q) ∨
      (∃ inb oob,
        (castRayGo g p1 incx incy dx2 dy2 fuel p last_p err).2 = inb ++ [oob] ∧
        ¬cellInBounds g oob ∧ (∀ v ∈ inb, cellInBounds g v) ∧
        (castRayGo g p1 incx incy dx2 dy2 fuel p last_p err).1 = inb.getLastD last_p) := by
  intro fuel
  induction fuel with
  | zero =>
    intro p last_p err
    left
    simp [castRayGo]
  | succ fuel ih =>
    intro p last_p err
    simp only [castRayGo]
    split
    · rename_i hoob
      right
      exact ⟨[], p, by simp, hoob, by simp, by simp [List.getLastD]⟩
    · rename_i hinb
      have hp : cellInBounds g p := not_not.mp hinb
      split
      · left
        intro q hq
        have : q = p := by simpa using hq
        rw [this]
        exact hp
      · split
        · rcases ih (p.1 + incx, p.2) p (err - dy2) with hall | ⟨inb, oob, hvis, hoob, hinbs, hres⟩
          · left
            intro q hq
            rcases List.mem_cons.mp (by simpa using hq) with rfl | hq'
            · exact hp
            · exact hall q hq'
          · right
            refine ⟨p :: inb, oob, by simp [hvis], hoob, ?_, ?_⟩
            · intro v hv
              rcases List.mem_cons.mp hv with rfl | hv'
              · exact hp
              · exact hinbs v hv'
            · rw [List.getLastD_cons]
              exact hres
        · rcases ih (p.1, p.2 + incy) p (err + dx2) with hall | ⟨inb, oob, hvis, hoob, hinbs, hres⟩
          · left
            intro q hq
            rcases List.mem_cons.mp (by simpa using hq) with rfl | hq'
            · exact hp
            · exact hall q hq'
          · right
            refine ⟨p :: inb, oob, by simp [hvis], hoob, ?_, ?_⟩
            · intro v hv
              rcases List.mem_cons.mp hv with rfl | hv'
              · exact hp
              · exact hinbs v hv'
            · rw [List.getLastD_cons]
              exact hres

lemma castRayGo_visits_head (g : GridData) (p1 : ℤ × ℤ) (incx incy dx2 dy2 : ℤ)
    (fuel : ℕ) (p last_p : ℤ × ℤ) (err : ℤ) :
    (castRayGo g p1 incx incy dx2 dy2 (fuel + 1) p last_p err).2.head? = some p := by
  simp only [castRayGo]
  split
  · rfl
  · split
    · rfl
    · split <;> rfl

/-- C7 (amended): whenever the walk of `_CastRay` steps onto an
out-of-bounds cell, the visited cells split as the in-bounds prefix
followed by that single out-of-bounds cell, and the function returns
the previously visited cell — the last in-bounds cell visited — which
exists whenever the origin cell is in bounds (so for an in-bounds
origin the result is always in bounds or equal to the target).  When
the origin cell itself is out of bounds there is no in-bounds visited
cell and `_CastRay` returns the out-of-bounds origin (`last_p` is
initialized to `p0` before the loop). -/
theorem castRay_oob_semantics (g : GridData) (p0 p1 : ℤ × ℤ) :
    ((∃ q ∈ castRayVisits p0 p1 g, ¬cellInBounds g q) →
      ∃ inb oob, castRayVisits p0 p1 g = inb ++ [oob] ∧ ¬cellInBounds g oob ∧
        (∀ v ∈ inb, cellInBounds g v) ∧ (cellInBounds g p0 → inb ≠ []) ∧
        CastRay p0 p1 g = inb.getLastD p0) ∧
    (¬cellInBounds g p0 → CastRay p0 p1 g = p0) ∧
    (cellInBounds g p0 →
      CastRay p0 p1 g = p1 ∨ cellInBounds g (CastRay p0 p1 g)) := by
  have hpos : (1 + |p1.1 - p0.1| + |p1.2 - p0.2|).toNat ≠ 0 := by
    have h1 : (0 : ℤ) ≤ |p1.1 - p0.1| := abs_nonneg _
    have h2 : (0 : ℤ) ≤ |p1.2 - p0.2| := abs_nonneg _
    omega
  obtain ⟨k, hk⟩ := Nat.exists_eq_succ_of_ne_zero hpos
  refine ⟨?_, ?_, ?_⟩
  · intro hex
    simp only [castRayVisits, CastRay, castRayFull] at hex ⊢
    rcases castRayGo_oob_returns_prev g p1 (if p1.1 > p0.1 then 1 else -1)
        (if p1.2 > p0.2 then 1 else -1) (2 * |p1.1 - p0.1|) (2 * |p1.2 - p0.2|)
        ((1 + |p1.1 - p0.1| + |p1.2 - p0.2|).toNat) p0 p0
        (|p1.1 - p0.1| - |p1.2 - p0.2|) with hall | ⟨inb, oob, hvis, hoob, hinbs, hres⟩
    · obtain ⟨q, hq, hnq⟩ := hex
      exact absurd (hall q hq) hnq
    · refine ⟨inb, oob, hvis, hoob, hinbs, ?_, hres⟩
      intro hp0 hinbnil
      rw [hinbnil, List.nil_append] at hvis
      have hh := castRayGo_visits_head g p1 (if p1.1 > p0.1 then 1 else -1)
        (if p1.2 > p0.2 then 1 else -1) (2 * |p1.1 - p0.1|) (2 * |p1.2 - p0.2|)
        k p0 p0 (|p1.1 - p0.1| - |p1.2 - p0.2|)
      rw [Nat.succ_eq_add_one] at hk
      rw [← hk, hvis] at hh
      have : oob = p0 := by simpa using hh
      rw [this] at hoob
      exact hoob hp0
  · intro h
    simp only [CastRay, castRayFull]
    rw [hk]
    simp only [castRayGo]
    have h' : ¬(0 ≤ p0.1 ∧ p0.1 < g.cols ∧ 0 ≤ p0.2 ∧ p0.2 < g.rows) := h
    rw [if_pos h']
  · intro h
    simpa [CastRay, castRayFull] using
      castRayGo_result_inbounds g p1 (if p1.1 > p0.1 then 1 else -1)
        (if p1.2 > p0.2 then 1 else -1) (2 * |p1.1 - p0.1|) (2 * |p1.2 - p0.2|)
        ((1 + |p1.1 - p0.1| + |p1.2 - p0.2|).toNat) p0 p0
        (|p1.1 - p0.1| - |p1.2 - p0.2|) h

/-- Witness for `castRay_oob_semantics`: on the free 2-by-2 grid the
ray from `(0,0)` toward `(3,0)` walks off the right edge; its visit
list contains the out-of-bounds cell `(2,0)`, and the theorem yields
the split of the visits and the returned last in-bounds cell. -/
theorem castRay_oob_semantics_witness :
    (∃ q ∈ castRayVisits (0, 0) (3, 0) freeGrid2, ¬cellInBounds freeGrid2 q) ∧
      (∃ inb oob, castRayVisits (0, 0) (3, 0) freeGrid2 = inb ++ [oob] ∧
        ¬cellInBounds freeGrid2 oob ∧ (∀ v ∈ inb, cellInBounds freeGrid2 v) ∧
        (cellInBounds freeGrid2 ((0 : ℤ), (0 : ℤ)) → inb ≠ []) ∧
        CastRay (0, 0) (3, 0) freeGrid2 = inb.getLastD (0, 0)) :=
  ⟨⟨(2, 0), by decide, by decide⟩,
    (castRay_oob_semantics freeGrid2 (0, 0) (3, 0)).1 ⟨(2, 0), by decide, by decide⟩⟩

/-- C7 counterexample: with an out-of-bounds origin, `_CastRay` returns
the origin cell, which is not an in-bounds cell, so the return value is
not "the last in-bounds cell visited". -/
theorem castRay_oob_origin_counterexample :
    CastRay (5, 5) (6, 6) freeGrid2 = (5, 5) ∧ ¬cellInBounds freeGrid2 (5, 5) := by
  constructor
  · decide
  · decide

/-- C5 counterexample: a ray on `unknownGrid` from cell `(0,0)` toward
cell `(2,0)` stops at the middle cell `(1,0)`, whose value is the
`unknown` marker `-1`, instead of passing through to the target: the
source test `grid_data[p[1], p[0]] != 0` treats `-1` as a hit. -/
theorem castRay_unknown_blocks :
    CastRay (0, 0) (2, 0) unknownGrid = (1, 0) ∧
      unknownGrid.data 0 1 = -1 ∧ ((1, 0) : ℤ × ℤ) ≠ (2, 0) := by
  refine ⟨by decide, by decide, by decide⟩

/-- C5 (amended): `_CastRay` stops on every nonzero cell — `unknown`
(`-1`) exactly like `occupied` (`100`): the result depends only on
which cells are zero, and an in-bounds nonzero cell is returned as the
hit. -/
theorem castRay_nonzero_cells_block (g g' : GridData) (hr : g.rows = g'.rows)
    (hc : g.cols = g'.cols) (hdata : ∀ r c, g.data r c = 0 ↔ g'.data r c = 0)
    (p0 p1 : ℤ × ℤ) :
    CastRay p0 p1 g = CastRay p0 p1 g' ∧
    (∀ q : ℤ × ℤ, cellInBounds g q → g.data q.2 q.1 ≠ 0 → CastRay q p1 g = q) := by
  constructor
  · simp only [CastRay, castRayFull, hr, hc]
    rw [castRayGo_congr_zero g g' hr hc hdata]
  · intro q hq hd
    have hpos : (1 + |p1.1 - q.1| + |p1.2 - q.2|).toNat ≠ 0 := by
      have h1 : (0 : ℤ) ≤ |p1.1 - q.1| := abs_nonneg _
      have h2 : (0 : ℤ) ≤ |p1.2 - q.2| := abs_nonneg _
      omega
    obtain ⟨k, hk⟩ := Nat.exists_eq_succ_of_ne_zero hpos
    simp only [CastRay, castRayFull]
    rw [hk]
    simp only [castRayGo]
    have hq' : 0 ≤ q.1 ∧ q.1 < g.cols ∧ 0 ≤ q.2 ∧ q.2 < g.rows := hq
    rw [if_neg (not_not_intro hq'), if_pos hd]

/-- Witness for `castRay_nonzero_cells_block`: the unknown-valued grid
and the occupied-valued grid produce the same ray result. -/
theorem castRay_nonzero_cells_block_witness :
    (∀ r c, unknownGrid.data r c = 0 ↔ occupiedGrid.data r c = 0) ∧
      CastRay (0, 0) (2, 0) unknownGrid = CastRay (0, 0) (2, 0) occupiedGrid := by
  have hdata : ∀ r c, unknownGrid.data r c = 0 ↔ occupiedGrid.data r c = 0 := by
    intro r c
    by_cases h : c = 1 <;> simp [unknownGrid, occupiedGrid, h]
  exact ⟨hdata,
    (castRay_nonzero_cells_block unknownGrid occupiedGrid rfl rfl hdata (0, 0) (2, 0)).1⟩

/-- C6 counterexample: for the point `(-1/2, 0)` with origin `(0, 0)`
and resolution `1`, the source's `astype(np.int32)` truncates `-1/2`
toward zero and yields cell `(0, 0)`, while the floor of `-1/2` is
`-1`, so `WorldToGrid` is not the componentwise floor at negative
offsets. -/
theorem worldToGrid_negative_not_floor :
    WorldToGrid (0, 0) 1 (-(1 / 2), 0) = (0, 0) ∧
      ⌊((-(1 / 2) : ℚ) - 0) / 1⌋ = -1 := by
  constructor
  · simp only [WorldToGrid, astypeInt32, Prod.mk.injEq]
    norm_num
  · norm_num

/-- C6 (amended): `WorldToGrid` truncates toward zero, so it agrees
with the componentwise floor exactly on points whose offset
`(point - origin) / resolution` has non-negative components. -/
theorem worldToGrid_eq_floor_of_nonneg (world_t_map : ℚ × ℚ) (resolution : ℚ)
    (point : ℚ × ℚ)
    (h1 : 0 ≤ (point.1 - world_t_map.1) / resolution)
    (h2 : 0 ≤ (point.2 - world_t_map.2) / resolution) :
    WorldToGrid world_t_map resolution point =
      (⌊(point.1 - world_t_map.1) / resolution⌋,
       ⌊(point.2 - world_t_map.2) / resolution⌋) := by
  simp only [WorldToGrid, astypeInt32, if_pos h1, if_pos h2]

/-- Witness for `worldToGrid_eq_floor_of_nonneg` at the point
`(3/2, 2)` with origin `(0, 0)` and resolution `1`. -/
theorem worldToGrid_eq_floor_witness :
    (0 : ℚ) ≤ ((3 / 2 : ℚ) - 0) / 1 ∧ (0 : ℚ) ≤ ((2 : ℚ) - 0) / 1 ∧
      WorldToGrid (0, 0) 1 (3 / 2, 2) =
        (⌊((3 / 2 : ℚ) - 0) / 1⌋, ⌊((2 : ℚ) - 0) / 1⌋) :=
  ⟨by norm_num, by norm_num,
    worldToGrid_eq_floor_of_nonneg (0, 0) 1 (3 / 2, 2) (by norm_num) (by norm_num)⟩

/-- C10: `Particle.UpdateOdom` changes only the pose and the
last-odometry timestamp; the weight and the shared grid (hence its
rows, cols, resolution, origin and cell data) are untouched, for every
particle, odometry message and noise draw. -/
theorem updateOdom_frame_effect (p : Particle) (odom : OdomMsg)
    (noise_x noise_y noise_rot : ℝ) :
    (p.UpdateOdom odom noise_x noise_y noise_rot).weight = p.weight ∧
    (p.UpdateOdom odom noise_x noise_y noise_rot).grid = p.grid ∧
    (p.UpdateOdom odom noise_x noise_y noise_rot).last_odom_timestamp =
      some odom.stamp :=
  ⟨rfl, rfl, rfl⟩

lemma beamP_eq_gaussianPdf (r s : ℝ) :
    beamP r s = gaussianPdf r s (SENSOR_MODEL_VAR ^ 2) := by
  simp only [beamP, gaussianPdf, SENSOR_MODEL_VAR]
  have h1 : Real.sqrt (2 * Real.pi * 15 ^ 2) = Real.sqrt (2 * Real.pi) * 15 := by
    rw [Real.sqrt_mul (by positivity), Real.sqrt_sq (by norm_num)]
  rw [h1]
  have h2 : -(1 / 2 : ℝ) * ((r - s) / 15) ^ 2 = -((r - s) ^ 2) / (2 * 15 ^ 2) := by
    ring
  rw [h2]

lemma beamP_pos (r s : ℝ) : 0 < beamP r s := by
  simp only [beamP, SENSOR_MODEL_VAR]
  positivity

lemma foldl_mul_beamP_eq_prod (l : List (ℝ × ℝ)) :
    l.foldl (fun acc pr => acc * beamP pr.1 pr.2) 1 =
      (l.map fun pr => beamP pr.1 pr.2).prod := by
  rw [List.prod_eq_foldl, List.foldl_map]

/-- C2 (amended): the weight stored by `Particle.UpdateScan` is
`10^300` times the product over the beams of the Gaussian density whose
standard deviation — not variance — is `SENSOR_MODEL_VAR` (so the
variance is `SENSOR_MODEL_VAR ^ 2`); in exact real arithmetic the
product is never zero, so the `10**(-300)` underflow branch is
unreachable. -/
theorem updateScanWeight_eq_scaled_gaussians (ranges sim_ranges : List ℝ) :
    UpdateScanWeight ranges sim_ranges =
      ((ranges.zip sim_ranges).map fun pr =>
        gaussianPdf pr.1 pr.2 (SENSOR_MODEL_VAR ^ 2)).prod * (10 : ℝ) ^ (300 : ℕ) := by
  simp only [UpdateScanWeight]
  rw [foldl_mul_beamP_eq_prod]
  have hpos : 0 < ((ranges.zip sim_ranges).map fun pr => beamP pr.1 pr.2).prod := by
    apply List.prod_pos
    intro x hx
    obtain ⟨pr, -, rfl⟩ := List.mem_map.mp hx
    exact beamP_pos _ _
  rw [if_neg (ne_of_gt hpos)]
  simp only [beamP_eq_gaussianPdf]

/-- C2 counterexample: for a single beam with observed range `0` and
simulated range `0`, the stored weight differs from the product of
Gaussian densities with variance `SENSOR_MODEL_VAR`: the stored weight
exceeds 1 (because of the `10**300` rescaling and the use of
`SENSOR_MODEL_VAR` as a standard deviation) while the claimed product
is below 1. -/
theorem updateScanWeight_single_beam_counterexample :
    UpdateScanWeight [0] [0] ≠
      (([(0 : ℝ)].zip [(0 : ℝ)]).map fun pr =>
        gaussianPdf pr.1 pr.2 SENSOR_MODEL_VAR).prod := by
  have hbeam : beamP 0 0 = 1 / (Real.sqrt (2 * Real.pi) * 15) := by
    simp only [beamP, SENSOR_MODEL_VAR]
    norm_num
  have hfold : (([(0 : ℝ)].zip [(0 : ℝ)]).foldl
      (fun acc pr => acc * beamP pr.1 pr.2) 1) = beamP 0 0 := by
    simp
  have hLHS : UpdateScanWeight [0] [0] = beamP 0 0 * 10 ^ 300 := by
    simp only [UpdateScanWeight]
    rw [hfold, if_neg (ne_of_gt (beamP_pos 0 0))]
  have hRHS : (([(0 : ℝ)].zip [(0 : ℝ)]).map fun pr =>
      gaussianPdf pr.1 pr.2 SENSOR_MODEL_VAR).prod = gaussianPdf 0 0 SENSOR_MODEL_VAR := by
    simp
  have hgauss : gaussianPdf 0 0 SENSOR_MODEL_VAR = 1 / Real.sqrt (2 * Real.pi * 15) := by
    simp only [gaussianPdf, SENSOR_MODEL_VAR]
    norm_num
  have hApos : 0 < Real.sqrt (2 * Real.pi) := Real.sqrt_pos.mpr (by positivity)
  have hA : Real.sqrt (2 * Real.pi) < 3 := by
    rw [show (3 : ℝ) = Real.sqrt 9 by
      rw [show (9 : ℝ) = 3 ^ 2 by norm_num, Real.sqrt_sq (by norm_num)]]
    exact Real.sqrt_lt_sqrt (by positivity) (by nlinarith [Real.pi_lt_d2])
  have hB : 1 < Real.sqrt (2 * Real.pi * 15) := by
    rw [show (1 : ℝ) = Real.sqrt 1 by rw [Real.sqrt_one]]
    exact Real.sqrt_lt_sqrt (by norm_num) (by nlinarith [Real.pi_gt_three])
  have hRHSlt : gaussianPdf 0 0 SENSOR_MODEL_VAR < 1 := by
    rw [hgauss, div_lt_one (by positivity)]
    linarith
  have hLHSgt : 1 < beamP 0 0 * 10 ^ 300 := by
    rw [hbeam, div_mul_eq_mul_div, one_mul, lt_div_iff₀ (by positivity)]
    have h45 : Real.sqrt (2 * Real.pi) * 15 < 45 := by nlinarith
    have h10 : (45 : ℝ) < 10 ^ 300 := by norm_num
    nlinarith
  rw [hLHS, hRHS]
  exact (lt_trans hRHSlt hLHSgt).ne'

lemma sum_map_div (l : List ℝ) (s : ℝ) :
    (l.map fun w => w / s).sum = l.sum / s := by
  induction l with
  | nil => simp
  | cons a t ih => simp [ih, add_div]

/-- C4 (amended): when the particle weights sum to zero, the
importance-sampling section fails with the uncaught `ValueError` of
`np.random.choice` (the normalized probabilities `w / 0` do not form a
distribution); there is no `DegenerateWeights` recovery — no uniform
reset of the population and no warning. -/
theorem resample_zero_sum_fails (ps : List Particle) (idx : List ℕ)
    (h : ((ps.take NUM_PARTICLES).map Particle.weight).sum = 0) :
    resampleStep ps idx = none := by
  simp only [resampleStep]
  rw [if_neg]
  rintro ⟨-, hsum1, -⟩
  rw [sum_map_div, h, zero_div] at hsum1
  exact absurd hsum1 (by norm_num)

/-- Witness for `resample_zero_sum_fails`: a single particle of
weight 0. -/
theorem resample_zero_sum_fails_witness :
    (([zeroPart].take NUM_PARTICLES).map Particle.weight).sum = 0 ∧
      resampleStep [zeroPart] [] = none := by
  have h : (([zeroPart].take NUM_PARTICLES).map Particle.weight).sum = 0 := by
    rw [List.take_of_length_le (by simp [NUM_PARTICLES])]
    simp [zeroPart]
  exact ⟨h, resample_zero_sum_fails [zeroPart] [] h⟩

/-- C4 counterexample: on a full population whose weights are all
zero, the resampling step neither raises a `DegenerateWeights` error
nor recovers by resetting the population to uniform weights — it
aborts with an uncaught error (modelled as `none`), leaving no
resampled population at all. -/
theorem resample_degenerate_no_recovery :
    resampleStep (List.replicate NUM_PARTICLES zeroPart)
      (List.replicate NUM_PARTICLES 0) = none := by
  simp only [resampleStep]
  rw [if_neg]
  rintro ⟨-, hsum1, -⟩
  have h : (((List.replicate NUM_PARTICLES zeroPart).take NUM_PARTICLES).map
      Particle.weight).sum = 0 := by
    simp [zeroPart]
  rw [sum_map_div, h, zero_div] at hsum1
  exact absurd hsum1 (by norm_num)

/-- C3: a filter built with `num_particles = 1` cannot complete a scan
update: the importance-sampling section iterates over the hard-coded
global `NUM_PARTICLES = 2000` instead of the population size, so
`self.particles[i].weight` raises `IndexError` (modelled as `none`) on
the 1-particle population. -/
theorem resample_small_population_fails :
    resampleStep [twoPart] [] = none := by
  simp only [resampleStep]
  rw [if_neg]
  rintro ⟨hle, -, -⟩
  simp [NUM_PARTICLES] at hle

/-- C1 (amended): on a population of exactly `NUM_PARTICLES` particles
with positive weights, the resampling step succeeds and replaces the
population by the value copies of the particles at the drawn indices:
the new population again has `NUM_PARTICLES` particles, and each new
particle inherits the pose AND the weight of its source — weights are
not reset to `1/N`. -/
theorem resample_copies_drawn_particles (ps : List Particle) (idx : List ℕ)
    (hlen : ps.length = NUM_PARTICLES) (hidx : idx.length = NUM_PARTICLES)
    (hw : ∀ w ∈ (ps.take NUM_PARTICLES).map Particle.weight, 0 < w) :
    resampleStep ps idx = some (idx.map fun j => ps.getD j default) ∧
      (idx.map fun j => ps.getD j default).length = NUM_PARTICLES := by
  have htake : ps.take NUM_PARTICLES = ps := List.take_of_length_le (le_of_eq hlen)
  have hlenprob : ((ps.take NUM_PARTICLES).map Particle.weight).length = NUM_PARTICLES := by
    rw [htake, List.length_map, hlen]
  have hne : (ps.take NUM_PARTICLES).map Particle.weight ≠ [] := by
    intro hnil
    rw [hnil] at hlenprob
    simp [NUM_PARTICLES] at hlenprob
  have hsumpos : 0 < ((ps.take NUM_PARTICLES).map Particle.weight).sum :=
    List.sum_pos _ hw hne
  constructor
  · simp only [resampleStep]
    rw [if_pos]
    · rw [List.drop_eq_nil_of_le (le_of_eq hlen), List.append_nil]
    · refine ⟨le_of_eq hlen.symm, ?_, ?_⟩
      · rw [sum_map_div, div_self (ne_of_gt hsumpos)]
      · intro w hwmem
        exact div_nonneg (le_of_lt (hw w hwmem)) (le_of_lt hsumpos)
  · rw [List.length_map, hidx]

/-- Witness for `resample_copies_drawn_particles`: a full population of
weight-2 particles and the all-zero index draw. -/
theorem resample_copies_drawn_particles_witness :
    (List.replicate NUM_PARTICLES twoPart).length = NUM_PARTICLES ∧
      (List.replicate NUM_PARTICLES (0 : ℕ)).length = NUM_PARTICLES ∧
      resampleStep (List.replicate NUM_PARTICLES twoPart)
          (List.replicate NUM_PARTICLES 0) =
        some ((List.replicate NUM_PARTICLES (0 : ℕ)).map
          fun j => (List.replicate NUM_PARTICLES twoPart).getD j default) := by
  refine ⟨List.length_replicate _ _, List.length_replicate _ _, ?_⟩
  refine (resample_copies_drawn_particles _ _ (List.length_replicate _ _)
    (List.length_replicate _ _) ?_).1
  intro w hw
  rw [List.take_replicate, List.map_replicate] at hw
  have := List.eq_of_mem_replicate hw
  rw [this]
  norm_num [twoPart]

/-- C1 counterexample: resampling a full population of weight-1
particles (with any index draw) yields a population whose particles
still carry weight 1, not the claimed `1 / N`: `copy.deepcopy`
preserves the sampled particle's weight and no reset to `1/N` is ever
performed. -/
theorem resample_keeps_sampled_weights :
    resampleStep (List.replicate NUM_PARTICLES onePart)
        (List.replicate NUM_PARTICLES 0) =
      some (List.replicate NUM_PARTICLES onePart) ∧
      onePart.weight ≠ 1 / (NUM_PARTICLES : ℝ) := by
  constructor
  · simp only [resampleStep]
    rw [if_pos]
    · rw [List.map_replicate, List.drop_replicate]
      simp only [Nat.sub_self, List.replicate_zero, List.append_nil]
      have hget : (List.replicate NUM_PARTICLES onePart).getD 0 default = onePart := by
        rw [List.getD_eq_getElem?_getD, List.getElem?_replicate,
          if_pos (by norm_num [NUM_PARTICLES] : 0 < NUM_PARTICLES)]
        rfl
      rw [hget]
    · refine ⟨?_, ?_, ?_⟩
      · rw [List.length_replicate]
      · rw [List.take_replicate, Nat.min_self, List.map_replicate, sum_map_div]
        rw [List.sum_replicate]
        show ((NUM_PARTICLES : ℕ) • onePart.weight) / _ = 1
        rw [nsmul_eq_mul]
        norm_num [onePart, NUM_PARTICLES]
      · intro w hwmem
        rw [List.take_replicate, Nat.min_self, List.map_replicate] at hwmem ⊢
        have hw1 := List.eq_of_mem_replicate hwmem
        rw [hw1, List.sum_replicate, nsmul_eq_mul]
        norm_num [onePart, NUM_PARTICLES]
  · norm_num [onePart, NUM_PARTICLES]

end Usc545mcl
